import Mathlib

/-! Verification of the crem exact-arithmetic crate

Shallow embedding of `src/lib.rs`, `src/operation.rs`, `src/operation/*.rs`
and `src/parse_string.rs` of the `crem` crate, instantiated at the parser's
numeric type `u32`, modelled as `Nat` (every input considered here stays far
below `2^32`, where Rust `u32` arithmetic agrees with `Nat`).  Rust panics
are modelled by the `Res.abort` constructor; the fuel parameter threads
through the mutually recursive operator dispatcher, with `Res.outOfFuel`
marking exhaustion (never reached at the fuel values used in the theorems).
-/

namespace Crem

/-- The `Operation<Num>` enum of `src/operation.rs` (identical in
`src/lib.rs`): the tagged union of the six expression shapes.  `Addition`
and `Multiplication` own ordered child lists, `Division` owns
divident/divisor, `Negation` one child, `Number` a scalar, `Variable` a
name (the `PhantomData` field carries no data and is omitted; derived
`PartialEq` on `Variable` is name equality, which structural equality on
`var` reproduces). -/
inductive Operation where
  | addition (summands : List Operation)
  | multiplication (multipliers : List Operation)
  | division (divident divisor : Operation)
  | negation (value : Operation)
  | number (value : Nat)
  | var (name : String)
deriving Repr

mutual

/-- Decidable structural equality on `Operation`, mirroring the derived
`PartialEq` of the Rust enum (on `Variable` the derived `PartialEq`
compares the name, since `PhantomData` is always equal). -/
def decEqOp : (a b : Operation) → Decidable (a = b)
  | .addition l, .addition m =>
    match decEqOpList l m with
    | isTrue h => isTrue (congrArg Operation.addition h)
    | isFalse h => isFalse (fun hh => h (by injection hh))
  | .multiplication l, .multiplication m =>
    match decEqOpList l m with
    | isTrue h => isTrue (congrArg Operation.multiplication h)
    | isFalse h => isFalse (fun hh => h (by injection hh))
  | .division a b, .division c d =>
    match decEqOp a c, decEqOp b d with
    | isTrue h1, isTrue h2 => isTrue (by rw [h1, h2])
    | isFalse h1, _ => isFalse (fun hh => h1 (by injection hh))
    | _, isFalse h2 => isFalse (fun hh => h2 (by injection hh))
  | .negation a, .negation b =>
    match decEqOp a b with
    | isTrue h => isTrue (congrArg Operation.negation h)
    | isFalse h => isFalse (fun hh => h (by injection hh))
  | .number a, .number b =>
    match Nat.decEq a b with
    | isTrue h => isTrue (congrArg Operation.number h)
    | isFalse h => isFalse (fun hh => h (by injection hh))
  | .var a, .var b =>
    match String.decEq a b with
    | isTrue h => isTrue (congrArg Operation.var h)
    | isFalse h => isFalse (fun hh => h (by injection hh))
  | .addition _, .multiplication _ => isFalse (fun h => Operation.noConfusion h)
  | .addition _, .division _ _ => isFalse (fun h => Operation.noConfusion h)
  | .addition _, .negation _ => isFalse (fun h => Operation.noConfusion h)
  | .addition _, .number _ => isFalse (fun h => Operation.noConfusion h)
  | .addition _, .var _ => isFalse (fun h => Operation.noConfusion h)
  | .multiplication _, .addition _ => isFalse (fun h => Operation.noConfusion h)
  | .multiplication _, .division _ _ => isFalse (fun h => Operation.noConfusion h)
  | .multiplication _, .negation _ => isFalse (fun h => Operation.noConfusion h)
  | .multiplication _, .number _ => isFalse (fun h => Operation.noConfusion h)
  | .multiplication _, .var _ => isFalse (fun h => Operation.noConfusion h)
  | .division _ _, .addition _ => isFalse (fun h => Operation.noConfusion h)
  | .division _ _, .multiplication _ => isFalse (fun h => Operation.noConfusion h)
  | .division _ _, .negation _ => isFalse (fun h => Operation.noConfusion h)
  | .division _ _, .number _ => isFalse (fun h => Operation.noConfusion h)
  | .division _ _, .var _ => isFalse (fun h => Operation.noConfusion h)
  | .negation _, .addition _ => isFalse (fun h => Operation.noConfusion h)
  | .negation _, .multiplication _ => isFalse (fun h => Operation.noConfusion h)
  | .negation _, .division _ _ => isFalse (fun h => Operation.noConfusion h)
  | .negation _, .number _ => isFalse (fun h => Operation.noConfusion h)
  | .negation _, .var _ => isFalse (fun h => Operation.noConfusion h)
  | .number _, .addition _ => isFalse (fun h => Operation.noConfusion h)
  | .number _, .multiplication _ => isFalse (fun h => Operation.noConfusion h)
  | .number _, .division _ _ => isFalse (fun h => Operation.noConfusion h)
  | .number _, .negation _ => isFalse (fun h => Operation.noConfusion h)
  | .number _, .var _ => isFalse (fun h => Operation.noConfusion h)
  | .var _, .addition _ => isFalse (fun h => Operation.noConfusion h)
  | .var _, .multiplication _ => isFalse (fun h => Operation.noConfusion h)
  | .var _, .division _ _ => isFalse (fun h => Operation.noConfusion h)
  | .var _, .negation _ => isFalse (fun h => Operation.noConfusion h)
  | .var _, .number _ => isFalse (fun h => Operation.noConfusion h)

/-- Decidable equality on child lists. -/
def decEqOpList : (l m : List Operation) → Decidable (l = m)
  | [], [] => isTrue rfl
  | [], _ :: _ => isFalse (fun h => List.noConfusion h)
  | _ :: _, [] => isFalse (fun h => List.noConfusion h)
  | x :: xs, y :: ys =>
    match decEqOp x y, decEqOpList xs ys with
    | isTrue h1, isTrue h2 => isTrue (by rw [h1, h2])
    | isFalse h1, _ => isFalse (fun hh => h1 (by injection hh))
    | _, isFalse h2 => isFalse (fun hh => h2 (by injection hh))

end

instance : DecidableEq Operation := decEqOp

/-- Result of running a fueled embedded computation: `ok` a value, `abort`
models a Rust `panic!`, `outOfFuel` marks fuel exhaustion (an artifact of
the embedding, never produced by the program itself). -/
inductive Res (α : Type) where
  | ok (val : α)
  | abort
  | outOfFuel
deriving DecidableEq, Repr

namespace Res

def bind : Res α → (α → Res β) → Res β
  | .ok a, f => f a
  | .abort, _ => .abort
  | .outOfFuel, _ => .outOfFuel

def map (f : α → β) : Res α → Res β
  | .ok a => .ok (f a)
  | .abort => .abort
  | .outOfFuel => .outOfFuel

end Res

/-- Embeds `greatest_common_divisor` of `src/operation/number.rs` (and
`src/lib.rs`): the Euclidean algorithm.  The Rust `while smaller != 0`
loop is embedded with an explicit iteration bound: `smaller` strictly
decreases every round (`bigger % smaller < smaller`), so `smaller + 1`
rounds always suffice and the bound is never hit. -/
def euclidGo : Nat → Nat → Nat → Nat
  | 0, _, bigger => bigger
  | fuel + 1, smaller, bigger =>
    if smaller = 0 then bigger else euclidGo fuel (bigger % smaller) smaller

/-- Embeds `greatest_common_divisor(a, b)`: order the pair as `(smaller, bigger)`
and run the Euclidean loop. -/
def greatest_common_divisor (a b : Nat) : Nat :=
  if a < b then euclidGo (a + 1) a b else euclidGo (b + 1) b a

theorem euclidGo_eq_gcd : ∀ fuel s b, s < fuel → euclidGo fuel s b = Nat.gcd s b := by
  intro fuel
  induction fuel with
  | zero => intro s b h; omega
  | succ f ih =>
    intro s b h
    by_cases hs : s = 0
    · subst hs; simp [euclidGo]
    · rw [euclidGo, if_neg hs, ih (b % s) s (by
        have := Nat.mod_lt b (Nat.pos_of_ne_zero hs); omega)]
      exact (Nat.gcd_rec s b).symm

/-- The source GCD agrees with `Nat.gcd`. -/
theorem greatest_common_divisor_eq_gcd (a b : Nat) :
    greatest_common_divisor a b = Nat.gcd a b := by
  unfold greatest_common_divisor
  by_cases h : a < b
  · rw [if_pos h, euclidGo_eq_gcd (a + 1) a b (Nat.lt_succ_self a)]
  · rw [if_neg h, euclidGo_eq_gcd (b + 1) b a (Nat.lt_succ_self b), Nat.gcd_comm]

/-- Embeds `Number::div` of `src/operation/number.rs` (lines 152–163): if the
divisor divides exactly, fold to a `Number`; otherwise build a `Division`
of the GCD-reduced pair.  `a % 0` panics in Rust, modelled by `abort`. -/
def numberDiv (a b : Nat) : Res Operation :=
  if b = 0 then .abort
  else if a % b = 0 then .ok (.number (a / b))
  else
    let gcd := greatest_common_divisor a b
    .ok (.division (.number (a / gcd)) (.number (b / gcd)))

/-- Embeds `Neg` for `Operation` (`src/operation.rs` lines 397–406 together with
the per-shape `Neg` impls): `Negation` unwraps, a zero `Number` stays
itself, everything else is wrapped in a `Negation`. -/
def negOp : Operation → Operation
  | .addition l => .negation (.addition l)
  | .multiplication l => .negation (.multiplication l)
  | .division a b => .negation (.division a b)
  | .negation v => v
  | .number a => if a = 0 then .number a else .negation (.number a)
  | .var s => .negation (.var s)

mutual

/-- Embeds `CanAddNumWell` (`src/operation/*.rs`): true for a bare `Number`, for
a `Negation` over such, for a `Division` whose divisor is a bare `Number`
and whose divident can, and for an `Addition` containing such a summand. -/
def canAddNumWell : Operation → Bool
  | .addition l => canAddNumWellList l
  | .multiplication _ => false
  | .division p q =>
    match q with
    | .number _ => canAddNumWell p
    | _ => false
  | .negation v => canAddNumWell v
  | .number _ => true
  | .var _ => false

/-- Helper for the `Addition` case: any summand qualifies. -/
def canAddNumWellList : List Operation → Bool
  | [] => false
  | x :: xs => canAddNumWell x || canAddNumWellList xs

end

/-- Does the guard `num.value == Num::default()` hold, i.e. is this a
`Number` with value zero? -/
def isZeroNum : Operation → Bool
  | .number a => a == 0
  | _ => false

/-- The descending index list produced by Rust's `(lo..n).rev()`. -/
def descRange (lo n : Nat) : List Nat :=
  (List.range' lo (n - lo)).reverse

/-- One outer round of the pairwise common-multiplier scan shared by
`Multiplication::add`/`sub`/`div` (`src/operation/multiplication.rs`
lines 141–148 and 211–218, `src/lib.rs` 1410–1417): for a fixed outer
index `i`, walk the descending inner index list `js` (Rust's
`(i..rhs.len()).rev()`, whose bounds were captured when the inner loop
started); on each step index `self` at `i` and `rhs` at `j` — out of
bounds panics, which happens when earlier matches shrank `self` to
length `i` or less — and on a match remove both elements and push the
matched multiplier. -/
def mulScanInner (i : Nat) :
    List Nat → List Operation → List Operation → List Operation →
    Res (List Operation × List Operation × List Operation)
  | [], s, r, acc => .ok (s, r, acc)
  | j :: js, s, r, acc =>
    match s[i]? with
    | none => .abort
    | some si =>
      match r[j]? with
      | none => .abort
      | some rj =>
        if si = rj then mulScanInner i js (s.eraseIdx i) (r.eraseIdx j) (acc ++ [si])
        else mulScanInner i js s r acc

/-- The outer loop of the scan: `for i in (0..self.len()).rev()`, with the
outer index list captured from the original `self` length. -/
def mulScanOuter :
    List Nat → List Operation → List Operation → List Operation →
    Res (List Operation × List Operation × List Operation)
  | [], s, r, acc => .ok (s, r, acc)
  | i :: is, s, r, acc =>
    match mulScanInner i (descRange i r.length) s r acc with
    | .ok (s', r', acc') => mulScanOuter is s' r' acc'
    | .abort => .abort
    | .outOfFuel => .outOfFuel

/-- Embeds `Add for Multiplication` (`src/operation/multiplication.rs` lines
137–172, `src/lib.rs` 1406–1441): run the scan collecting shared
multipliers; with no match return the plain two-summand `Addition`,
otherwise append the `Addition` of the two remainder products to the
collected common factors. -/
def mulAdd (s r : List Operation) : Res Operation :=
  match mulScanOuter (List.range s.length).reverse s r [] with
  | .ok (s', r', acc) =>
    if acc.isEmpty then
      .ok (.addition [.multiplication s', .multiplication r'])
    else
      .ok (.multiplication
        (acc ++ [.addition [.multiplication s', .multiplication r']]))
  | .abort => .abort
  | .outOfFuel => .outOfFuel

/-- Embeds `Sub for Multiplication` (`src/operation/multiplication.rs` lines
239–271): as `mulAdd` with the right-hand remainder negated. -/
def mulSub (s r : List Operation) : Res Operation :=
  match mulScanOuter (List.range s.length).reverse s r [] with
  | .ok (s', r', acc) =>
    if acc.isEmpty then
      .ok (.addition [.multiplication s', negOp (.multiplication r')])
    else
      .ok (.multiplication
        (acc ++ [.addition [.multiplication s', negOp (.multiplication r')]]))
  | .abort => .abort
  | .outOfFuel => .outOfFuel

/-- Embeds `Div for Multiplication` (`src/operation/multiplication.rs` lines
210–223, `src/lib.rs` 1479–1493): the same removal scan (its collected
list is not used), then a `Division` of the two remainders. -/
def mulDiv (s r : List Operation) : Res Operation :=
  match mulScanOuter (List.range s.length).reverse s r [] with
  | .ok (s', r', _) => .ok (.division (.multiplication s') (.multiplication r'))
  | .abort => .abort
  | .outOfFuel => .outOfFuel

mutual

/-- Embeds `Add for Operation` (`src/operation.rs` lines 197–243, identical in
`src/lib.rs`): the arms in source order — six same-shape delegations
(`Addition::add` concatenates, `Multiplication::add` is the common-factor
scan, `Division::add` from `src/lib.rs` lines 1215–1227 unifies equal
denominators or cross-multiplies, `Negation::add` wraps the sum,
`Number::add` folds, `Variable::add` builds a two-summand `Addition`),
then the zero-`Number` shortcuts, `Addition::add_num` absorption, the
negation-to-subtraction rewrites, the `Addition` push arms, the
division cross-multiplication arms, and the default two-summand
`Addition`. -/
def opAdd : Nat → Operation → Operation → Res Operation
  | 0, _, _ => .outOfFuel
  | f + 1, x, y =>
    match x, y with
    | .addition a, .addition b => .ok (.addition (a ++ b))
    | .multiplication a, .multiplication b => mulAdd a b
    | .division a b, .division c d =>
      if b = d then
        (opAdd f a c).bind fun s => opDiv f s b
      else
        (opMul f a d).bind fun m1 =>
        (opMul f c b).bind fun m2 =>
        (opAdd f m1 m2).bind fun s =>
        (opMul f b d).bind fun dd =>
        opDiv f s dd
    | .negation a, .negation b => (opAdd f a b).map .negation
    | .number a, .number b => .ok (.number (a + b))
    | .var a, .var b => .ok (.addition [.var a, .var b])
    | x, y =>
      if isZeroNum x then .ok y
      else if isZeroNum y then .ok x
      else
        match x, y with
        | .number a, .addition l => (addNum f l a).map .addition
        | .addition l, .number a => (addNum f l a).map .addition
        | .negation n, any => opSub f any n
        | any, .negation n => opSub f any n
        | .addition l, any => .ok (.addition (l ++ [any]))
        | any, .addition l => .ok (.addition (l ++ [any]))
        | .division p q, any =>
          (opMul f any q).bind fun m => (opAdd f m p).bind fun s => opDiv f s q
        | any, .division p q =>
          (opMul f any q).bind fun m => (opAdd f m p).bind fun s => opDiv f s q
        | x, y => .ok (.addition [x, y])

/-- Embeds `Sub for Operation` (`src/operation.rs` lines 356–381): same-shape
delegations (`Division::sub` from `src/lib.rs` lines 1279–1292 — note its
cross-multiply branch adds the two products, exactly as in the source),
the zero shortcuts, the negation rewrites, and the default `Addition`
with the negated right operand. -/
def opSub : Nat → Operation → Operation → Res Operation
  | 0, _, _ => .outOfFuel
  | f + 1, x, y =>
    match x, y with
    | .addition a, .addition b => .ok (.addition (a ++ b.map negOp))
    | .multiplication a, .multiplication b => mulSub a b
    | .division a b, .division c d =>
      if b = d then
        (opSub f a c).bind fun s => opDiv f s b
      else
        (opMul f a d).bind fun m1 =>
        (opMul f c b).bind fun m2 =>
        (opAdd f m1 m2).bind fun s =>
        (opMul f b d).bind fun dd =>
        opDiv f s dd
    | .negation a, .negation b => opSub f b a
    | .number a, .number b =>
      if a < b then .ok (negOp (.number (b - a))) else .ok (.number (a - b))
    | .var a, .var b =>
      if a = b then .ok (.number 0)
      else .ok (.addition [.var a, negOp (.var b)])
    | x, y =>
      if isZeroNum x then .ok (negOp y)
      else if isZeroNum y then .ok x
      else
        match x, y with
        | .negation n, any => (opAdd f n any).map negOp
        | any, .negation n => opAdd f any n
        | x, y => .ok (.addition [x, .negation y])

/-- Embeds `Mul for Operation` (`src/operation.rs` lines 305–340): same-shape
delegations, the zero absorption arms, the negation sign rewrites, the
division rewrites (both orders form `(any * divident) / divisor`), the
`Multiplication` push arms, and the default two-element
`Multiplication`.  The one-`Number` identity arms are commented out in
the source and therefore absent. -/
def opMul : Nat → Operation → Operation → Res Operation
  | 0, _, _ => .outOfFuel
  | f + 1, x, y =>
    match x, y with
    | .addition a, .addition b => .ok (.multiplication [.addition a, .addition b])
    | .multiplication a, .multiplication b => .ok (.multiplication (a ++ b))
    | .division a b, .division c d =>
      (opMul f a c).bind fun m1 => (opMul f b d).bind fun m2 => opDiv f m1 m2
    | .negation a, .negation b => opMul f a b
    | .number a, .number b => .ok (.number (a * b))
    | .var a, .var b => .ok (.multiplication [.var a, .var b])
    | x, y =>
      if isZeroNum x then .ok x
      else if isZeroNum y then .ok y
      else
        match x, y with
        | any, .negation n => (opMul f any n).map negOp
        | .negation n, any => (opMul f n any).map negOp
        | any, .division p q => (opMul f any p).bind fun m => opDiv f m q
        | .division p q, any => (opMul f any p).bind fun m => opDiv f m q
        | .multiplication l, any => .ok (.multiplication (l ++ [any]))
        | any, .multiplication l => .ok (.multiplication (l ++ [any]))
        | x, y => .ok (.multiplication [x, y])

/-- Embeds `Div for Operation` (`src/operation.rs` lines 259–289): same-shape
delegations (`Number::div` is the GCD reduction, `Division::div`
multiplies by the flipped divisor), the divide-by-zero panic arm, the
zero-divident arm, the negation rewrites, the division rewrites, and the
default `Division` node.  The divide-by-one identity arm is commented
out in the source and therefore absent. -/
def opDiv : Nat → Operation → Operation → Res Operation
  | 0, _, _ => .outOfFuel
  | f + 1, x, y =>
    match x, y with
    | .addition a, .addition b => .ok (.division (.addition a) (.addition b))
    | .multiplication a, .multiplication b => mulDiv a b
    | .division a b, .division c d =>
      (opDiv f d c).bind fun m => opMul f (.division a b) m
    | .negation a, .negation b => opDiv f a b
    | .number a, .number b => numberDiv a b
    | .var a, .var b => .ok (.division (.var a) (.var b))
    | x, y =>
      if isZeroNum y then .abort
      else if isZeroNum x then .ok x
      else
        match x, y with
        | .negation n, any => (opDiv f n any).map negOp
        | any, .negation n => (opDiv f any n).map negOp
        | any, .division p q => (opDiv f q p).bind fun m => opMul f any m
        | .division p q, any => (opMul f q any).bind fun m => opDiv f p m
        | x, y => .ok (.division x y)

/-- Embeds `Addition::add_num` (`src/operation/addition.rs` lines 71–81): scan
for the first summand for which `can_add_number_well` holds, remove it,
add the `Number` to it through the generic `+` and append the result;
with no such summand, append the bare `Number`. -/
def addNum : Nat → List Operation → Nat → Res (List Operation)
  | _, [], n => .ok [.number n]
  | 0, _ :: _, _ => .outOfFuel
  | f + 1, x :: xs, n =>
    if canAddNumWell x then (opAdd f x (.number n)).map fun s => xs ++ [s]
    else (addNum f xs n).map fun l => x :: l

end

/-- Embeds `Variable::set_vars` lookup (`src/operation/variable.rs` lines
88–96): walk the binding list and return a clone of the first
replacement whose name matches; with no match, a clone of the variable
itself. -/
def findVar (name : String) : List (String × Operation) → Operation
  | [] => .var name
  | (n, e) :: rest => if name = n then e else findVar name rest

mutual

/-- Embeds `Operation::set_vars` (`src/operation.rs` lines 108–118 dispatching
to the per-shape impls): `Addition` folds the substituted summands onto
`Number(0)` through the generic `+`; `Multiplication` multiplies the
substituted multipliers left to right (indexing `multipliers[0]`, which
panics on an empty list); `Division` divides the substituted children;
`Negation` negates the substituted child; `Number` returns itself;
`Variable` is the `findVar` lookup. -/
def setVars : Nat → Operation → List (String × Operation) → Res Operation
  | 0, _, _ => .outOfFuel
  | f + 1, .addition l, vars => setVarsAddList f (.number 0) l vars
  | f + 1, .multiplication l, vars =>
    match l with
    | [] => .abort
    | x :: xs => (setVars f x vars).bind fun r => setVarsMulList f r xs vars
  | f + 1, .division a b, vars =>
    (setVars f a vars).bind fun p => (setVars f b vars).bind fun q => opDiv f p q
  | f + 1, .negation v, vars => (setVars f v vars).map negOp
  | _ + 1, .number a, _ => .ok (.number a)
  | _ + 1, .var n, vars => .ok (findVar n vars)

/-- The `Addition::set_vars` fold: `acc + summand.set_vars(vars)`. -/
def setVarsAddList : Nat → Operation → List Operation → List (String × Operation) → Res Operation
  | _, acc, [], _ => .ok acc
  | 0, _, _ :: _, _ => .outOfFuel
  | f + 1, acc, x :: xs, vars =>
    (setVars f x vars).bind fun sx =>
    (opAdd f acc sx).bind fun acc' => setVarsAddList f acc' xs vars

/-- The `Multiplication::set_vars` fold: `result * multiplier.set_vars(vars)`. -/
def setVarsMulList : Nat → Operation → List Operation → List (String × Operation) → Res Operation
  | _, acc, [], _ => .ok acc
  | 0, _, _ :: _, _ => .outOfFuel
  | f + 1, acc, x :: xs, vars =>
    (setVars f x vars).bind fun sx =>
    (opMul f acc sx).bind fun acc' => setVarsMulList f acc' xs vars

end

/-- Is this node an `Addition`? -/
def isAddition : Operation → Bool
  | .addition _ => true
  | _ => false

/-- Is this node a `Multiplication`? -/
def isMultiplication : Operation → Bool
  | .multiplication _ => true
  | _ => false

/-- Is this node a bare `Number`? -/
def isNumber : Operation → Bool
  | .number _ => true
  | _ => false

/-- How many children are bare `Number`s. -/
def countNumbers : List Operation → Nat
  | [] => 0
  | x :: xs => (if isNumber x then 1 else 0) + countNumbers xs

mutual

/-- Modelled from the spec: the declared shape invariants of `Addition`
and `Multiplication` nodes (data-model table, section 3): every
`Addition` node has at least 2 children, none of which is itself an
`Addition`, and at most one of which is a bare `Number`; every
`Multiplication` node has at least 2 children, none of which is itself a
`Multiplication`.  Checked recursively over a whole tree; other shapes
impose no constraint of their own. -/
def shapesOk : Operation → Bool
  | .addition l =>
    decide (2 ≤ l.length) && l.all (fun c => !isAddition c) &&
    decide (countNumbers l ≤ 1) && shapesOkList l
  | .multiplication l =>
    decide (2 ≤ l.length) && l.all (fun c => !isMultiplication c) && shapesOkList l
  | .division a b => shapesOk a && shapesOk b
  | .negation v => shapesOk v
  | .number _ => true
  | .var _ => true

/-- The invariant holds of every element of a child list. -/
def shapesOkList : List Operation → Bool
  | [] => true
  | x :: xs => shapesOk x && shapesOkList xs

end

/-- Does a `Res` satisfy a predicate whenever it is an `ok` value? -/
def resSat (P : Operation → Bool) : Res Operation → Bool
  | .ok e => P e
  | .abort => true
  | .outOfFuel => true

mutual

/-- Embeds `Calc` (`src/operation.rs` lines 131–150 and the per-shape impls)
instantiated at the output type `ℚ`: `Addition` sums the summand values
starting from `summands[0]` (panic on an empty list), `Multiplication`
multiplies from `multipliers[0]`, `Division` divides, `Negation`
negates, a `Number` converts its value, and reaching a `Variable`
panics. -/
def calcQ : Operation → Option ℚ
  | .addition [] => none
  | .addition (x :: xs) => (calcQ x).bind fun v => calcQAddList v xs
  | .multiplication [] => none
  | .multiplication (x :: xs) => (calcQ x).bind fun v => calcQMulList v xs
  | .division a b => (calcQ a).bind fun p => (calcQ b).map fun q => p / q
  | .negation v => (calcQ v).map fun p => -p
  | .number a => some (a : ℚ)
  | .var _ => none

/-- Fold of `Addition::calc` over the remaining summands. -/
def calcQAddList : ℚ → List Operation → Option ℚ
  | acc, [] => some acc
  | acc, x :: xs => (calcQ x).bind fun v => calcQAddList (acc + v) xs

/-- Fold of `Multiplication::calc` over the remaining multipliers. -/
def calcQMulList : ℚ → List Operation → Option ℚ
  | acc, [] => some acc
  | acc, x :: xs => (calcQ x).bind fun v => calcQMulList (acc * v) xs

end

/-- Embeds `TryFromStrError` of `src/parse_string.rs` lines 4–10. -/
inductive TryFromStrError where
  | unexpectedCharacter (c : Char)
  | unexpectedEof
deriving DecidableEq, Repr

/-- Result of a parsing computation: an `ok` value, a typed parse error
(Rust's `Err(TryFromStrError)`), an `abort` modelling a Rust panic, or
fuel exhaustion (an embedding artifact). -/
inductive PRes (α : Type) where
  | ok (val : α)
  | err (e : TryFromStrError)
  | abort
  | outOfFuel
deriving Repr

instance [DecidableEq α] : DecidableEq (PRes α)
  | .ok a, .ok b =>
    match decEq a b with
    | isTrue h => isTrue (congrArg PRes.ok h)
    | isFalse h => isFalse (fun hh => h (by injection hh))
  | .err a, .err b =>
    match decEq a b with
    | isTrue h => isTrue (congrArg PRes.err h)
    | isFalse h => isFalse (fun hh => h (by injection hh))
  | .abort, .abort => isTrue rfl
  | .outOfFuel, .outOfFuel => isTrue rfl
  | .ok _, .err _ => isFalse (fun h => PRes.noConfusion h)
  | .ok _, .abort => isFalse (fun h => PRes.noConfusion h)
  | .ok _, .outOfFuel => isFalse (fun h => PRes.noConfusion h)
  | .err _, .ok _ => isFalse (fun h => PRes.noConfusion h)
  | .err _, .abort => isFalse (fun h => PRes.noConfusion h)
  | .err _, .outOfFuel => isFalse (fun h => PRes.noConfusion h)
  | .abort, .ok _ => isFalse (fun h => PRes.noConfusion h)
  | .abort, .err _ => isFalse (fun h => PRes.noConfusion h)
  | .abort, .outOfFuel => isFalse (fun h => PRes.noConfusion h)
  | .outOfFuel, .ok _ => isFalse (fun h => PRes.noConfusion h)
  | .outOfFuel, .err _ => isFalse (fun h => PRes.noConfusion h)
  | .outOfFuel, .abort => isFalse (fun h => PRes.noConfusion h)

namespace PRes

def bind : PRes α → (α → PRes β) → PRes β
  | .ok a, f => f a
  | .err e, _ => .err e
  | .abort, _ => .abort
  | .outOfFuel, _ => .outOfFuel

end PRes

/-- Embed an arithmetic result into a parsing result. -/
def liftRes : Res α → PRes α
  | .ok a => .ok a
  | .abort => .abort
  | .outOfFuel => .outOfFuel

/-- One element of the flat token stream `Vec<Result<Term, char>>`:
`Ok` holds a parsed sub-expression, `Err` an operator character. -/
inductive FlatItem where
  | ok (t : Operation)
  | err (c : Char)
deriving DecidableEq, Repr

/-- Rust `char::is_whitespace`: the Unicode `White_Space` property. -/
def rustIsWhitespace (c : Char) : Bool :=
  let n := c.toNat
  n == 9 || n == 10 || n == 11 || n == 12 || n == 13 || n == 32 ||
  n == 0x85 || n == 0xA0 || n == 0x1680 ||
  (decide (0x2000 ≤ n) && decide (n ≤ 0x200A)) ||
  n == 0x2028 || n == 0x2029 || n == 0x202F || n == 0x205F || n == 0x3000

/-- The ten digit characters matched explicitly by the parser's states. -/
def isDigitChar (c : Char) : Bool :=
  c == '0' || c == '1' || c == '2' || c == '3' || c == '4' ||
  c == '5' || c == '6' || c == '7' || c == '8' || c == '9'

/-- Rust `str::parse::<u32>()` on a digit buffer: fails (`Err`, which the
parser turns into a panic) on an empty buffer, a non-digit, or a value
exceeding `u32::MAX`. -/
def parseU32 (buffer : List Char) : Option Nat :=
  if buffer.isEmpty then none
  else if buffer.all isDigitChar then
    let v := buffer.foldl (fun acc c => acc * 10 + (c.toNat - 48)) 0
    if v ≤ 4294967295 then some v else none
  else none

/-- The `States` enum local to `parse_to_flat` (`src/parse_string.rs`
lines 60–76).  Buffers are kept as character lists. -/
inductive PState where
  | start
  | postTerm
  | postOp
  | postMinus (prev : PState)
  | preComma (buffer : List Char) (positive : Bool)
  | postComma (pre : Nat) (buffer : List Char) (positive : Bool)
  | brackets (depth : Nat) (buffer : List Char) (positive : Bool)
deriving DecidableEq, Repr

/-- The decimal-literal term `Term::from(pre) + Term::div(parsed, 10^k)`
built when a `PostComma` buffer of length `k` is committed (`Term::div`
routes through the generic `/` of two `Number`s).  For `k ≥ 10` the Rust
`10u32.pow(k)` would overflow; all inputs considered stay below that. -/
def decimalTerm (f : Nat) (pre : Nat) (buffer : List Char) (parsed : Nat) : Res Operation :=
  (opDiv f (.number parsed) (.number (10 ^ buffer.length))).bind fun d =>
    opAdd f (.number pre) d

/-- The local `Operation` enum of `fold_flat` (`src/parse_string.rs`
lines 20–24), renamed to avoid clashing with the expression type. -/
inductive FoldOperation where
  | add
  | mul
  | div
deriving DecidableEq, Repr

/-- The first fold of `fold_flat` (`src/parse_string.rs` lines 26–52):
`Add` pushes the term, `Mul`/`Div` replace the last accumulated term by
its product/quotient with the new term (`acc.len() - 1` underflows and
the indexing panics when `acc` is empty); operator characters switch the
pending operation, any other character is the `panic!` arm. -/
def foldStep : Nat → FoldOperation → List Operation → List FlatItem → Res (List Operation)
  | _, _, acc, [] => .ok acc
  | 0, _, _, _ :: _ => .outOfFuel
  | f + 1, oper, acc, .ok t :: rest =>
    match oper with
    | .add => foldStep f .add (acc ++ [t]) rest
    | .mul =>
      match acc.getLast? with
      | none => .abort
      | some last =>
        (opMul f last t).bind fun m => foldStep f .mul (acc.dropLast ++ [m]) rest
    | .div =>
      match acc.getLast? with
      | none => .abort
      | some last =>
        (opDiv f last t).bind fun m => foldStep f .div (acc.dropLast ++ [m]) rest
  | f + 1, _, acc, .err c :: rest =>
    if c == '+' then foldStep f .add acc rest
    else if c == '*' then foldStep f .mul acc rest
    else if c == '/' then foldStep f .div acc rest
    else .abort

/-- The second fold of `fold_flat` (line 54): sum the accumulated terms
onto `Term::from(0u32)` through the generic `+`. -/
def foldFinal : Nat → Operation → List Operation → Res Operation
  | _, acc, [] => .ok acc
  | 0, _, _ :: _ => .outOfFuel
  | f + 1, acc, t :: ts => (opAdd f acc t).bind fun a => foldFinal f a ts

/-- Embeds `fold_flat` (`src/parse_string.rs` lines 19–55). -/
def foldFlat (f : Nat) (input : List FlatItem) : Res Operation :=
  (foldStep f .add [] input).bind fun terms => foldFinal f (.number 0) terms

/-- The end-of-input handling of `parse_to_flat` (`src/parse_string.rs`
lines 275–294): `Brackets`, `PostMinus`, `PostOp` and `Start` are
`UnexpectedEof`; `PostComma`/`PreComma` commit the pending literal
(parsing an empty or overlong buffer panics); `PostTerm` is done. -/
def parseEof (f : Nat) (st : PState) (out : List FlatItem) : PRes (List FlatItem) :=
  match st with
  | .brackets _ _ _ => .err .unexpectedEof
  | .postMinus _ => .err .unexpectedEof
  | .postOp => .err .unexpectedEof
  | .start => .err .unexpectedEof
  | .postComma pre buffer positive =>
    match parseU32 buffer with
    | none => .abort
    | some v =>
      match decimalTerm f pre buffer v with
      | .ok term => .ok (out ++ [.ok (if positive then term else negOp term)])
      | .abort => .abort
      | .outOfFuel => .outOfFuel
  | .preComma buffer positive =>
    match parseU32 buffer with
    | none => .abort
    | some v =>
      .ok (out ++ [.ok (if positive then Operation.number v else negOp (Operation.number v))])
  | .postTerm => .ok out

mutual

/-- Embeds `parse_string` (`src/parse_string.rs` lines 12–17): flatten, then
fold. -/
def parseString : Nat → List Char → PRes Operation
  | 0, _ => .outOfFuel
  | f + 1, cs => (parseToFlat f cs).bind fun out => liftRes (foldFlat f out)

/-- Embeds `parse_to_flat` (`src/parse_string.rs` lines 57–297): run the state
machine over the characters from `Start`, then the end-of-input
handling. -/
def parseToFlat : Nat → List Char → PRes (List FlatItem)
  | 0, _ => .outOfFuel
  | f + 1, cs => (parseLoop f .start [] cs).bind fun p => parseEof f p.1 p.2

/-- The character loop of `parse_to_flat`: one step per character,
translated arm by arm from the `match state` of lines 80–272. -/
def parseLoop : Nat → PState → List FlatItem → List Char → PRes (PState × List FlatItem)
  | _, st, out, [] => .ok (st, out)
  | 0, _, _, _ :: _ => .outOfFuel
  | f + 1, st, out, c :: cs =>
    match st with
    | .start =>
      if isDigitChar c then parseLoop f (.preComma [c] true) out cs
      else if c == '.' then parseLoop f (.postComma 0 [] true) out cs
      else if c == '+' || c == '*' || c == '/' then
        parseLoop f .postOp (out ++ [.err c]) cs
      else if c == '-' then parseLoop f (.postMinus .start) out cs
      else if c == '(' then parseLoop f (.brackets 1 [] true) out cs
      else if rustIsWhitespace c then parseLoop f .start out cs
      else .err (.unexpectedCharacter c)
    | .postTerm =>
      if c == '+' || c == '*' || c == '/' then
        parseLoop f .postOp (out ++ [.err c]) cs
      else if c == '-' then parseLoop f (.postMinus .postTerm) out cs
      else if c == '(' then parseLoop f (.brackets 1 [] true) (out ++ [.err '*']) cs
      else if rustIsWhitespace c then parseLoop f .postTerm out cs
      else .err (.unexpectedCharacter c)
    | .postOp =>
      if isDigitChar c then parseLoop f (.preComma [c] true) out cs
      else if c == '.' then parseLoop f (.postComma 0 [] true) out cs
      else if c == '-' then parseLoop f (.postMinus .postOp) out cs
      else if c == '(' then parseLoop f (.brackets 1 [] true) out cs
      else if rustIsWhitespace c then parseLoop f .postOp out cs
      else .err (.unexpectedCharacter c)
    | .preComma buffer positive =>
      if c == '.' then
        match parseU32 buffer with
        | none => .abort
        | some v => parseLoop f (.postComma v [] positive) out cs
      else if isDigitChar c then parseLoop f (.preComma (buffer ++ [c]) positive) out cs
      else if c == '(' then
        match parseU32 buffer with
        | none => .abort
        | some v =>
          parseLoop f (.brackets 1 [] true)
            (out ++ [.ok (if positive then Operation.number v else negOp (Operation.number v)),
              .err '*']) cs
      else if c == '+' || c == '-' || c == '*' || c == '/' then
        match parseU32 buffer with
        | none => .abort
        | some v =>
          let pushed := out ++
            [FlatItem.ok (if positive then Operation.number v else negOp (Operation.number v))]
          if c == '-' then parseLoop f (.postMinus .postTerm) pushed cs
          else parseLoop f .postOp (pushed ++ [.err c]) cs
      else if rustIsWhitespace c then
        match parseU32 buffer with
        | none => .abort
        | some v =>
          parseLoop f .postTerm
            (out ++ [.ok (if positive then Operation.number v else negOp (Operation.number v))]) cs
      else .err (.unexpectedCharacter c)
    | .postComma pre buffer positive =>
      if isDigitChar c then parseLoop f (.postComma pre (buffer ++ [c]) positive) out cs
      else if c == '(' then
        match parseU32 buffer with
        | none => .abort
        | some v =>
          match decimalTerm f pre buffer v with
          | .ok term =>
            parseLoop f (.brackets 1 [] true)
              (out ++ [.ok (if positive then term else negOp term), .err '*']) cs
          | .abort => .abort
          | .outOfFuel => .outOfFuel
      else if c == '+' || c == '-' || c == '*' || c == '/' then
        match parseU32 buffer with
        | none => .abort
        | some v =>
          match decimalTerm f pre buffer v with
          | .ok term =>
            let pushed := out ++ [FlatItem.ok (if positive then term else negOp term)]
            if c == '-' then parseLoop f (.postMinus .postTerm) pushed cs
            else parseLoop f .postOp (pushed ++ [.err c]) cs
          | .abort => .abort
          | .outOfFuel => .outOfFuel
      else if rustIsWhitespace c then
        match parseU32 buffer with
        | none => .abort
        | some v =>
          match decimalTerm f pre buffer v with
          | .ok term =>
            parseLoop f .postTerm (out ++ [.ok (if positive then term else negOp term)]) cs
          | .abort => .abort
          | .outOfFuel => .outOfFuel
      else .err (.unexpectedCharacter c)
    | .brackets depth buffer positive =>
      if c == '(' then parseLoop f (.brackets (depth + 1) (buffer ++ [c]) positive) out cs
      else if c == ')' then
        if depth == 1 then
          match parseString f buffer with
          | .ok term =>
            parseLoop f .postTerm (out ++ [.ok (if positive then term else negOp term)]) cs
          | .err e => .err e
          | .abort => .abort
          | .outOfFuel => .outOfFuel
        else parseLoop f (.brackets (depth - 1) (buffer ++ [c]) positive) out cs
      else parseLoop f (.brackets depth (buffer ++ [c]) positive) out cs
    | .postMinus prev =>
      if c == '-' then
        match prev with
        | .start => parseLoop f .start out cs
        | .postOp => parseLoop f .postOp out cs
        | .postTerm => parseLoop f .postOp (out ++ [.err '+']) cs
        | _ => .abort
      else if isDigitChar c then
        match prev with
        | .postTerm => parseLoop f (.preComma [c] false) (out ++ [.err '+']) cs
        | _ => parseLoop f (.preComma [c] false) out cs
      else if c == '.' then
        match prev with
        | .postTerm => parseLoop f (.postComma 0 [] false) (out ++ [.err '+']) cs
        | _ => parseLoop f (.postComma 0 [] false) out cs
      else if c == '(' then
        match prev with
        | .postTerm => parseLoop f (.brackets 1 [] false) (out ++ [.err '+']) cs
        | _ => parseLoop f (.brackets 1 [] false) out cs
      else if rustIsWhitespace c then parseLoop f (.postMinus prev) out cs
      else .err (.unexpectedCharacter c)

end

/-- Embeds `Term::try_from(&str)` / `parse_string(value)` on a Lean string. -/
def parse (f : Nat) (s : String) : PRes Operation :=
  parseString f s.data

/-- Is this node a canonical leaf (a `Number` or a `Variable`)? -/
def isLeaf : Operation → Bool
  | .number _ => true
  | .var _ => true
  | _ => false

/-! Helper lemmas -/

/-- Canonical reduction is GCD-invariant: dividing `Number(k*x)` by
`Number(k*y)` builds the same tree as dividing `Number(x)` by
`Number(y)` (spec section 8, first bullet). -/
theorem numberDiv_mul_cancel (k x y : Nat) (hk : k ≠ 0) (hy : y ≠ 0) :
    numberDiv (k * x) (k * y) = numberDiv x y := by
  have hky : k * y ≠ 0 := Nat.mul_ne_zero hk hy
  have hmod : k * x % (k * y) = k * (x % y) := Nat.mul_mod_mul_left k x y
  unfold numberDiv
  rw [if_neg hky, if_neg hy]
  by_cases hdiv : x % y = 0
  · have h1 : k * x % (k * y) = 0 := by rw [hmod, hdiv, Nat.mul_zero]
    rw [if_pos h1, if_pos hdiv,
      Nat.mul_div_mul_left x y (Nat.pos_of_ne_zero hk)]
  · have h1 : ¬ k * x % (k * y) = 0 := by
      rw [hmod]
      intro hc
      rcases Nat.mul_eq_zero.mp hc with h | h
      · exact hk h
      · exact hdiv h
    rw [if_neg h1, if_neg hdiv]
    have hg : greatest_common_divisor (k * x) (k * y) =
        k * greatest_common_divisor x y := by
      rw [greatest_common_divisor_eq_gcd, greatest_common_divisor_eq_gcd,
        Nat.gcd_mul_left]
    simp only [hg]
    rw [Nat.mul_div_mul_left x _ (Nat.pos_of_ne_zero hk),
      Nat.mul_div_mul_left y _ (Nat.pos_of_ne_zero hk)]

/-! Claims -/

/-- C1: adding the canonical `Division(1,10)` to `Division(2,10)` with
the generic `+` yields exactly the canonical `Division(3,10)` (so their
`calc` results coincide and no rounding happens before evaluation), and
in general adding two `Number`-over-`Number` `Division`s `a/b + c/d`
(nonzero denominators) produces precisely the canonically reduced tree
built for `(a*d + c*b) / (b*d)`. -/
theorem c1_division_add_exact :
    (opAdd 2 (.division (.number 1) (.number 10))
        (.division (.number 2) (.number 10)) =
      .ok (.division (.number 3) (.number 10)) ∧
     calcQ (.division (.number 3) (.number 10)) = some ((3 : ℚ) / 10)) ∧
    ∀ a b c d : Nat, b ≠ 0 → d ≠ 0 →
      opAdd 2 (.division (.number a) (.number b))
          (.division (.number c) (.number d)) =
        numberDiv (a * d + c * b) (b * d) := by
  constructor
  · exact ⟨by decide, by simp [calcQ, Option.bind]⟩
  · intro a b c d hb hd
    by_cases hbd : b = d
    · subst hbd
      have lhs : opAdd 2 (.division (.number a) (.number b))
          (.division (.number c) (.number b)) = numberDiv (a + c) b := by
        show opAdd (1 + 1) _ _ = _
        simp [opAdd, opDiv, Res.bind]
      rw [lhs, show a * b + c * b = b * (a + c) by ring,
        show b * b = b * b from rfl]
      exact (numberDiv_mul_cancel b (a + c) b hb hb).symm
    · show opAdd (1 + 1) _ _ = _
      simp [opAdd, opMul, opDiv, Res.bind, hbd]

/-- C1 witness: the general statement applied at `1/10 + 2/10`. -/
theorem c1_division_add_exact_witness :
    opAdd 2 (.division (.number 1) (.number 10))
        (.division (.number 2) (.number 10)) =
      numberDiv (1 * 10 + 2 * 10) (10 * 10) :=
  c1_division_add_exact.2 1 10 2 10 (by decide) (by decide)

/-- C2: dividing `Number(a)` by `Number(b)` (`b ≠ 0`) folds to
`Number(a/b)` on exact division and otherwise builds a `Division` of the
two values divided by their GCD, which are coprime; the GCD is the
Euclidean algorithm and agrees with `Nat.gcd`. -/
theorem c2_number_div_reduces (a b : Nat) (hb : b ≠ 0) :
    (b ∣ a → numberDiv a b = .ok (.number (a / b))) ∧
    (¬ b ∣ a →
      numberDiv a b = .ok (.division
        (.number (a / greatest_common_divisor a b))
        (.number (b / greatest_common_divisor a b))) ∧
      Nat.Coprime (a / greatest_common_divisor a b)
        (b / greatest_common_divisor a b)) ∧
    greatest_common_divisor a b = Nat.gcd a b := by
  have hbpos : 0 < b := Nat.pos_of_ne_zero hb
  refine ⟨?_, ?_, greatest_common_divisor_eq_gcd a b⟩
  · intro hdvd
    have hmod : a % b = 0 := Nat.dvd_iff_mod_eq_zero.mp hdvd
    unfold numberDiv
    rw [if_neg hb, if_pos hmod]
  · intro hndvd
    have hmod : ¬ a % b = 0 := fun hc =>
      hndvd (Nat.dvd_iff_mod_eq_zero.mpr hc)
    constructor
    · unfold numberDiv
      rw [if_neg hb, if_neg hmod]
    · rw [greatest_common_divisor_eq_gcd]
      exact Nat.coprime_div_gcd_div_gcd (Nat.gcd_pos_of_pos_right a hbpos)

/-- C2 witness: `4 / 6` reduces to the coprime `Division(2, 3)`. -/
theorem c2_number_div_reduces_witness :
    numberDiv 4 6 = .ok (.division (.number 2) (.number 3)) ∧
    Nat.Coprime 2 3 := by
  have h := (c2_number_div_reduces 4 6 (by decide)).2.1 (by decide)
  exact ⟨h.1.trans (by decide), by decide⟩

/-- C4: at the failing input `1/2 - 1/3` (unequal denominators) the
code's `Division::sub` cross-multiply branch *adds* the numerators,
returning `5/6` — the claimed (and mathematically correct) sign-flipped
result would be `(1*3 - 1*2)/6 = 1/6`, as the exact rational values
confirm. -/
theorem c4_division_sub_adds_numerators :
    opSub 2 (.division (.number 1) (.number 2))
        (.division (.number 1) (.number 3)) =
      .ok (.division (.number 5) (.number 6)) ∧
    calcQ (.division (.number 5) (.number 6)) = some ((5 : ℚ) / 6) ∧
    (1 : ℚ) / 2 - 1 / 3 = 1 / 6 ∧ ((5 : ℚ) / 6 ≠ 1 / 6) := by
  refine ⟨by decide, by simp [calcQ, Option.bind], by norm_num, by norm_num⟩

/-- C5 counterexample: `x * Number(1)` and `x / Number(1)` are *not*
identities for a `Variable` operand — the one-identity dispatcher arms
are commented out in the source, so the products/quotients are built
unsimplified. -/
theorem c5_one_not_identity_counterexample :
    opMul 2 (.var "x") (.number 1) = .ok (.multiplication [.var "x", .number 1]) ∧
    opDiv 2 (.var "x") (.number 1) = .ok (.division (.var "x") (.number 1)) ∧
    Operation.multiplication [.var "x", .number 1] ≠ .var "x" ∧
    Operation.division (.var "x") (.number 1) ≠ .var "x" := by
  refine ⟨by decide, by decide, by decide, by decide⟩

/-- A `Division` of coprime `Number`s whose divisor is nonzero and does
not divide the divident is returned unchanged by `Number::div`. -/
theorem numberDiv_canonical (a b : Nat) (hb : b ≠ 0) (hndvd : ¬ b ∣ a)
    (hcop : Nat.Coprime a b) :
    numberDiv a b = .ok (.division (.number a) (.number b)) := by
  have hmod : ¬ a % b = 0 := fun hc => hndvd (Nat.dvd_iff_mod_eq_zero.mpr hc)
  have h1 : Nat.gcd a b = 1 := hcop
  unfold numberDiv
  rw [if_neg hb, if_neg hmod]
  simp only [greatest_common_divisor_eq_gcd, h1, Nat.div_one]

/-- C5 amended: multiplying or dividing by a one `Number` is an identity
where the dispatcher's arms make it so — when the other operand is
itself a `Number` (the same-shape fold), and, propagated through the
negation and division rewrite arms, when it is a canonical `Negation` of
a nonzero `Number` or a canonical coprime `Number`-over-`Number`
`Division`.  There is no general one-identity arm (they are commented
out in the source): a `Variable` operand, for one, is left unsimplified
(see the counterexample). -/
theorem c5_one_identity_where_valid (a b : Nat) :
    (opMul 1 (.number 1) (.number a) = .ok (.number a) ∧
     opMul 1 (.number a) (.number 1) = .ok (.number a) ∧
     opDiv 1 (.number a) (.number 1) = .ok (.number a)) ∧
    (a ≠ 0 →
      opMul 2 (.negation (.number a)) (.number 1) =
        .ok (.negation (.number a)) ∧
      opMul 2 (.number 1) (.negation (.number a)) =
        .ok (.negation (.number a)) ∧
      opDiv 2 (.negation (.number a)) (.number 1) =
        .ok (.negation (.number a))) ∧
    (b ≠ 0 → ¬ b ∣ a → Nat.Coprime a b →
      opMul 2 (.division (.number a) (.number b)) (.number 1) =
        .ok (.division (.number a) (.number b)) ∧
      opMul 2 (.number 1) (.division (.number a) (.number b)) =
        .ok (.division (.number a) (.number b)) ∧
      opDiv 2 (.division (.number a) (.number b)) (.number 1) =
        .ok (.division (.number a) (.number b))) := by
  refine ⟨⟨?_, ?_, ?_⟩, fun ha => ⟨?_, ?_, ?_⟩,
    fun hb hndvd hcop => ⟨?_, ?_, ?_⟩⟩
  · show opMul (0 + 1) _ _ = _
    simp [opMul]
  · show opMul (0 + 1) _ _ = _
    simp [opMul]
  · show opDiv (0 + 1) _ _ = _
    simp [opDiv, numberDiv, Nat.mod_one, Nat.div_one]
  · show opMul (1 + 1) _ _ = _
    simp [opMul, Res.map, negOp, isZeroNum, ha]
  · show opMul (1 + 1) _ _ = _
    simp [opMul, Res.map, negOp, isZeroNum, ha]
  · show opDiv (1 + 1) _ _ = _
    simp [opDiv, numberDiv, Res.map, negOp, isZeroNum, ha,
      Nat.mod_one, Nat.div_one]
  · show opMul (1 + 1) _ _ = _
    have h1 : opMul (1 + 1) (.division (.number a) (.number b)) (.number 1) =
        numberDiv a b := by
      simp [opMul, opDiv, Res.bind, isZeroNum]
    rw [h1]
    exact numberDiv_canonical a b hb hndvd hcop
  · show opMul (1 + 1) _ _ = _
    have h1 : opMul (1 + 1) (.number 1) (.division (.number a) (.number b)) =
        numberDiv a b := by
      simp [opMul, opDiv, Res.bind, isZeroNum]
    rw [h1]
    exact numberDiv_canonical a b hb hndvd hcop
  · show opDiv (1 + 1) _ _ = _
    have h1 : opDiv (1 + 1) (.division (.number a) (.number b)) (.number 1) =
        numberDiv a b := by
      simp [opDiv, opMul, Res.bind, isZeroNum]
    rw [h1]
    exact numberDiv_canonical a b hb hndvd hcop

/-- C5 witness: the negation and division identities at `-(2)` and
`2/3`, discharging the nonzero/non-dividing/coprime hypotheses. -/
theorem c5_one_identity_where_valid_witness :
    opMul 2 (.negation (.number 2)) (.number 1) =
      .ok (.negation (.number 2)) ∧
    opMul 2 (.division (.number 2) (.number 3)) (.number 1) =
      .ok (.division (.number 2) (.number 3)) ∧
    opDiv 2 (.division (.number 2) (.number 3)) (.number 1) =
      .ok (.division (.number 2) (.number 3)) :=
  ⟨((c5_one_identity_where_valid 2 3).2.1 (by decide)).1,
   ((c5_one_identity_where_valid 2 3).2.2 (by decide) (by decide) (by decide)).1,
   ((c5_one_identity_where_valid 2 3).2.2 (by decide) (by decide) (by decide)).2.2⟩

/-- C7 counterexample: adding a `Variable` to an identically-named
`Variable` yields the plain two-summand `Addition [v, v]`, which is not
the `Multiplication` tree `2 * v`. -/
theorem c7_var_add_counterexample :
    opAdd 1 (.var "v") (.var "v") = .ok (.addition [.var "v", .var "v"]) ∧
    opMul 1 (.number 2) (.var "v") =
      .ok (.multiplication [.number 2, .var "v"]) ∧
    Operation.addition [.var "v", .var "v"] ≠
      Operation.multiplication [.number 2, .var "v"] := by
  refine ⟨by decide, by decide, by decide⟩

/-- C7 amended: for every variable name, `v + v` yields the two-summand
`Addition [v, v]` (not `2*v`), and `v - v` yields the default `Number`
zero. -/
theorem c7_var_add_sub (v : String) :
    opAdd 1 (.var v) (.var v) = .ok (.addition [.var v, .var v]) ∧
    opSub 1 (.var v) (.var v) = .ok (.number 0) := by
  constructor
  · show opAdd (0 + 1) _ _ = _
    simp [opAdd]
  · show opSub (0 + 1) _ _ = _
    simp [opSub]

/-- C8: parsing is *not* total over typed results — the input `"."`
reaches the `PostComma` end-of-input commit with an empty fraction
buffer, whose `parse::<u32>` failure hits the
`panic!("Internal library error.")` arm (modelled by `abort`), while
well-formed failures do produce the typed `UnexpectedEof` /
`UnexpectedCharacter` results. -/
theorem c8_parse_dot_panics :
    parse 10 "." = .abort ∧
    parse 10 "3 +" = .err .unexpectedEof ∧
    parse 10 "(" = .err .unexpectedEof ∧
    parse 10 "3 & 4" = .err (.unexpectedCharacter '&') := by
  refine ⟨by decide, by decide, by decide, by decide⟩

/-- C10: variable substitution is single-pass and first-match-wins: at a
`Variable` node the first binding with a matching name is returned as-is
(later bindings are skipped only when their name differs), and the
inserted replacement is not re-substituted — binding `x` to an
expression containing `x` returns that expression with the inner `x`
intact. -/
theorem c10_set_vars_first_match :
    (∀ (v : String) (e : Operation) (rest : List (String × Operation)),
      setVars 1 (.var v) ((v, e) :: rest) = .ok e) ∧
    (∀ (f : Nat) (v w : String) (e : Operation)
        (rest : List (String × Operation)), v ≠ w →
      setVars (f + 1) (.var w) ((v, e) :: rest) =
        setVars (f + 1) (.var w) rest) ∧
    setVars 1 (.var "x") [("x", Operation.addition [.var "x", .number 1])] =
      .ok (.addition [.var "x", .number 1]) := by
  refine ⟨?_, ?_, by decide⟩
  · intro v e rest
    show setVars (0 + 1) _ _ = _
    simp [setVars, findVar]
  · intro f v w e rest hvw
    have hwv : ¬ w = v := fun h => hvw h.symm
    simp [setVars, findVar, hwv]

/-- C10 witness: a non-matching head binding is skipped. -/
theorem c10_set_vars_first_match_witness :
    setVars 1 (.var "b") [("a", Operation.number 7)] =
      setVars 1 (.var "b") [] :=
  c10_set_vars_first_match.2.1 0 "a" "b" (.number 7) [] (by decide)

/-- C3 counterexample: `(x + 1) - y` — built by the public operators from
canonical operands — is an `Addition` whose first child is itself an
`Addition` (and subtracting any non-special shape from an `Addition`
always nests this way, since `Sub` has no `Addition` flattening arm), so
the declared shape invariant fails on a reachable tree. -/
theorem c3_shape_invariant_counterexample :
    opAdd 2 (.var "x") (.number 1) = .ok (.addition [.var "x", .number 1]) ∧
    opSub 2 (.addition [.var "x", .number 1]) (.var "y") =
      .ok (.addition [.addition [.var "x", .number 1], .negation (.var "y")]) ∧
    shapesOk (.addition [.addition [.var "x", .number 1],
      .negation (.var "y")]) = false := by
  refine ⟨by decide, by decide, by decide⟩

/-- Every element of `descRange lo n` is below `n`. -/
theorem descRange_lt (lo n : Nat) : ∀ j ∈ descRange lo n, j < n := by
  intro j hj
  unfold descRange at hj
  rw [List.mem_reverse] at hj
  have := List.mem_range'_1.mp hj
  omega

/-- With disjoint multiplier lists, one inner round of the scan matches
nothing, removes nothing, and cannot go out of bounds. -/
theorem mulScanInner_disjoint (i : Nat) :
    ∀ (js : List Nat) (s r acc : List Operation),
      i < s.length → (∀ x ∈ s, x ∉ r) → (∀ j ∈ js, j < r.length) →
      mulScanInner i js s r acc = .ok (s, r, acc) := by
  intro js
  induction js with
  | nil => intro s r acc _ _ _; rfl
  | cons j js ih =>
    intro s r acc hi hdisj hjs
    have hj : j < r.length := hjs j (List.mem_cons_self j js)
    have hsget : s[i]? = some s[i] := List.getElem?_eq_getElem hi
    have hrget : r[j]? = some r[j] := List.getElem?_eq_getElem hj
    have hne : ¬ s[i] = r[j] := fun he => by
      have hmem : s[i] ∈ r := he ▸ List.getElem_mem hj
      exact hdisj s[i] (List.getElem_mem hi) hmem
    rw [mulScanInner, hsget, hrget]
    exact (if_neg hne).trans
      (ih s r acc hi hdisj (fun j' hj' => hjs j' (List.mem_cons_of_mem j hj')))

/-- With disjoint multiplier lists the whole scan is the identity. -/
theorem mulScanOuter_disjoint :
    ∀ (idx : List Nat) (s r acc : List Operation),
      (∀ i ∈ idx, i < s.length) → (∀ x ∈ s, x ∉ r) →
      mulScanOuter idx s r acc = .ok (s, r, acc) := by
  intro idx
  induction idx with
  | nil => intro s r acc _ _; rfl
  | cons i idx ih =>
    intro s r acc hidx hdisj
    rw [mulScanOuter,
      mulScanInner_disjoint i (descRange i r.length) s r acc
        (hidx i (List.mem_cons_self i idx)) hdisj (descRange_lt i r.length)]
    exact ih s r acc (fun i' hi' => hidx i' (List.mem_cons_of_mem i hi')) hdisj

/-- C6 counterexample: adding the canonical `Multiplication [a, b]` to
the canonical `Multiplication [x, a, b]` with the generic `+` panics —
after `b` matches at inner index 2, the inner loop continues to index 1
and indexes the left list (now of length 1) at position 1, out of
bounds — instead of extracting the shared factors `a, b`. -/
theorem c6_mul_add_scan_aborts :
    shapesOk (.multiplication [.var "a", .var "b"]) = true ∧
    shapesOk (.multiplication [.var "x", .var "a", .var "b"]) = true ∧
    opAdd 1 (.multiplication [.var "a", .var "b"])
      (.multiplication [.var "x", .var "a", .var "b"]) = .abort := by
  refine ⟨by decide, by decide, by decide⟩

/-- C6 amended: when the two multiplier lists share no multiplier at
all, the scan completes without matches and the generic `+` returns the
plain two-summand `Addition` of the two `Multiplication`s. -/
theorem c6_mul_add_disjoint_plain_addition (L1 L2 : List Operation)
    (h : ∀ x ∈ L1, x ∉ L2) :
    opAdd 1 (.multiplication L1) (.multiplication L2) =
      .ok (.addition [.multiplication L1, .multiplication L2]) := by
  show opAdd (0 + 1) _ _ = _
  simp only [opAdd]
  unfold mulAdd
  rw [mulScanOuter_disjoint (List.range L1.length).reverse L1 L2 []
    (fun i hi => by rw [List.mem_reverse, List.mem_range] at hi; exact hi) h]
  simp

/-- C6 witness: two disjoint products add to a plain `Addition`. -/
theorem c6_mul_add_disjoint_plain_addition_witness :
    opAdd 1 (.multiplication [.var "a", .number 2])
        (.multiplication [.var "b", .var "c"]) =
      .ok (.addition [.multiplication [.var "a", .number 2],
        .multiplication [.var "b", .var "c"]]) :=
  c6_mul_add_disjoint_plain_addition _ _ (by decide)

/-- C3 amended: every `Addition` and `Multiplication` node created by
applying one public operator to two canonical *leaf* operands (`Number`
or `Variable`) satisfies the declared shape invariants; already one more
operator application can break them (see the counterexample). -/
theorem c3_leaf_operand_shapes (x y : Operation)
    (hx : isLeaf x = true) (hy : isLeaf y = true) :
    resSat shapesOk (opAdd 1 x y) = true ∧
    resSat shapesOk (opSub 1 x y) = true ∧
    resSat shapesOk (opMul 1 x y) = true ∧
    resSat shapesOk (opDiv 1 x y) = true ∧
    shapesOk (negOp x) = true := by
  show resSat shapesOk (opAdd (0 + 1) x y) = true ∧
    resSat shapesOk (opSub (0 + 1) x y) = true ∧
    resSat shapesOk (opMul (0 + 1) x y) = true ∧
    resSat shapesOk (opDiv (0 + 1) x y) = true ∧
    shapesOk (negOp x) = true
  cases x with
  | number a =>
    cases y with
    | number b =>
      refine ⟨by simp [opAdd, resSat, shapesOk], ?_,
        by simp [opMul, resSat, shapesOk], ?_, ?_⟩
      · by_cases hab : a < b
        · simp [opSub, hab, negOp, resSat, shapesOk]
          split <;> simp [resSat, shapesOk]
        · simp [opSub, hab, negOp, resSat, shapesOk]
      · simp only [opDiv, numberDiv]
        split_ifs <;> simp [resSat, shapesOk, shapesOkList]
      · by_cases ha : a = 0 <;> simp [negOp, ha, shapesOk]
    | var t =>
      refine ⟨?_, ?_, ?_, ?_, ?_⟩ <;>
        by_cases ha : a = 0 <;>
          simp [opAdd, opSub, opMul, opDiv, isZeroNum, ha, negOp, resSat,
            shapesOk, shapesOkList, countNumbers, isNumber, isAddition,
            isMultiplication]
    | addition l => simp [isLeaf] at hy
    | multiplication l => simp [isLeaf] at hy
    | division p q => simp [isLeaf] at hy
    | negation v => simp [isLeaf] at hy
  | var s =>
    cases y with
    | number b =>
      refine ⟨?_, ?_, ?_, ?_, ?_⟩ <;>
        by_cases hb : b = 0 <;>
          simp [opAdd, opSub, opMul, opDiv, isZeroNum, hb, negOp, resSat,
            shapesOk, shapesOkList, countNumbers, isNumber, isAddition,
            isMultiplication]
    | var t =>
      refine ⟨?_, ?_, ?_, ?_, ?_⟩ <;>
        by_cases hst : s = t <;>
          simp [opAdd, opSub, opMul, opDiv, isZeroNum, hst, negOp, resSat,
            shapesOk, shapesOkList, countNumbers, isNumber, isAddition,
            isMultiplication]
    | addition l => simp [isLeaf] at hy
    | multiplication l => simp [isLeaf] at hy
    | division p q => simp [isLeaf] at hy
    | negation v => simp [isLeaf] at hy
  | addition l => simp [isLeaf] at hx
  | multiplication l => simp [isLeaf] at hx
  | division p q => simp [isLeaf] at hx
  | negation v => simp [isLeaf] at hx

/-- C3 witness: the amended statement at the leaves `Number 1` and
`Variable "y"`. -/
theorem c3_leaf_operand_shapes_witness :
    resSat shapesOk (opAdd 1 (.number 1) (.var "y")) = true ∧
    resSat shapesOk (opSub 1 (.number 1) (.var "y")) = true ∧
    resSat shapesOk (opMul 1 (.number 1) (.var "y")) = true ∧
    resSat shapesOk (opDiv 1 (.number 1) (.var "y")) = true ∧
    shapesOk (negOp (.number 1)) = true :=
  c3_leaf_operand_shapes (.number 1) (.var "y") (by decide) (by decide)

/-- The state the parser is in while a run of unary minus signs is being
absorbed after an operator: `false` is `PostOp` (even count so far),
`true` is `PostMinus(PostOp)` (odd count so far). -/
def minusState : Bool → PState
  | false => .postOp
  | true => .postMinus .postOp

/-- A run of `n` minus signs read from `PostOp` (or mid-run) is resolved
purely by parity, without lookahead and without emitting tokens: the
state machine ends in `PostOp` when the total count is even and in
`PostMinus(PostOp)` when it is odd. -/
theorem parseLoop_minus_run (n : Nat) :
    ∀ (f : Nat) (b : Bool) (out : List FlatItem) (rest : List Char),
      parseLoop (n + f) (minusState b) out (List.replicate n '-' ++ rest) =
        parseLoop f (minusState (Bool.xor (decide (n % 2 = 1)) b)) out rest := by
  induction n with
  | zero => intro f b out rest; simp [minusState]
  | succ n ih =>
    intro f b out rest
    have hstep : parseLoop (n + 1 + f) (minusState b) out
        (List.replicate (n + 1) '-' ++ rest) =
        parseLoop (n + f) (minusState (!b)) out (List.replicate n '-' ++ rest) := by
      rw [show n + 1 + f = (n + f) + 1 from by omega]
      cases b <;> rfl
    rw [hstep, ih f (!b) out rest]
    rcases Nat.mod_two_eq_zero_or_one n with h | h <;>
      simp [Nat.add_mod, h]

/-- C9: `parse("8*----2")` yields `Number(16)` and `parse("8*-----2")`
yields `Negation(Number(16))`; in general, for every count `n` of minus
signs in `8*<minuses>2`, an even count cancels and an odd count negates
the term. -/
theorem c9_unary_minus_parity :
    parse 50 "8*----2" = .ok (.number 16) ∧
    parse 50 "8*-----2" = .ok (.negation (.number 16)) ∧
    ∀ n : Nat,
      parseString (n + 12) ('8' :: '*' :: (List.replicate n '-' ++ ['2'])) =
        .ok (if n % 2 = 0 then .number 16 else .negation (.number 16)) := by
  refine ⟨by decide, by decide, ?_⟩
  intro n
  have expand : parseString (n + 12) ('8' :: '*' :: (List.replicate n '-' ++ ['2'])) =
      ((parseLoop (n + 8) .postOp [FlatItem.ok (.number 8), FlatItem.err '*']
          (List.replicate n '-' ++ ['2'])).bind
        (fun p => parseEof (n + 10) p.1 p.2)).bind
        (fun out => liftRes (foldFlat (n + 11) out)) := rfl
  have key := parseLoop_minus_run n 8 false
    [FlatItem.ok (.number 8), FlatItem.err '*'] ['2']
  rw [show minusState false = PState.postOp from rfl] at key
  rw [expand, key]
  rcases Nat.mod_two_eq_zero_or_one n with h | h <;> rw [h] <;> rfl

end Crem
